import Mathlib

/-!
Verification of the dynarmic A64 decode-table subsystem
(src/frontend/A64/decoder/a64.h) and of the executable-memory helpers
(src/common/memory_util.cpp), via a shallow embedding in Lean.

The decode table is a list of matchers; `GetDecodeTable` stable-sorts it by
descending popcount of the mask (`std::stable_sort`, modelled by a stable
insertion sort) and then stable-partitions it so that the names in
`comes_first` precede all others
(`std::stable_partition`, modelled as `filter p ++ filter (not p)`).
`Decode` scans the table in order and returns the first matcher whose
predicate holds (`std::find_if`, modelled by `List.find?`).
-/

/-- A Matcher Record: a compiled bit pattern (mask/expected), a name, and a
bound handler reference (abstracted as a numeric identifier). From
frontend/decoder/matcher.h as described by the data model. -/
structure Matcher where
  mask : Nat
  expected : Nat
  name : String
  handler : Nat
deriving DecidableEq, Repr

/-- Modelled from the spec: common/bit_util.h is not under src. The spec calls
this quantity `popcount(mask)` — the number of fixed (set) bits of the mask.
The matcher word type is u32, so 32 bit positions are counted. -/
def BitCount (value : Nat) : Nat :=
  ((List.range 32).filter (fun i => value.testBit i)).length

/-- Modelled from the spec: frontend/decoder/matcher.h is not under src.
Spec 4.2: the match predicate is computed as `(word & mask) == expected`. -/
def Matcher.Matches (m : Matcher) (instruction : Nat) : Bool :=
  (instruction &&& m.mask) == m.expected

/-- Modelled from the spec: frontend/decoder/decoder_detail.h (the bit-pattern
compiler) is not under src. Spec 4.1: each `1` sets both mask and expected
bits at that position, each `0` sets only the mask bit, each don't-care marker
sets neither, and an unrecognized symbol is a (build-time, fatal) failure,
represented here by `none`. The string is read most-significant bit first. -/
def compileBitString (s : String) : Option (Nat × Nat) :=
  s.data.foldl
    (fun acc c => acc.bind (fun me =>
      if c = '1' then some (2 * me.1 + 1, 2 * me.2 + 1)
      else if c = '0' then some (2 * me.1 + 1, 2 * me.2)
      else if c = '-' then some (2 * me.1, 2 * me.2)
      else none))
    (some (0, 0))

/-- Modelled from the spec: instantiation of one Matcher Record from one
Instruction Encoding Description (decoder_detail.h GetMatcher), preserving the
declared name and handler binding. -/
def GetMatcher (nm : String) (handler : Nat) (bitstring : String) : Option Matcher :=
  (compileBitString bitstring).map
    (fun me => { mask := me.1, expected := me.2, name := nm, handler := handler })

/-- The strict comparator passed to `std::stable_sort` in a64.h:
`BitCount(matcher1.GetMask()) > BitCount(matcher2.GetMask())` — a matcher with
more bits in its mask is more specific, so it should come first. -/
def matcherLt (matcher1 matcher2 : Matcher) : Bool :=
  decide (BitCount matcher2.mask < BitCount matcher1.mask)

/-- One step of the stable sort: insert `a` into an already-sorted list,
placing it after every element strictly smaller than it under the comparator
(here: strictly more specific), and before the first element that is not —
in particular before every element it ties with, which is what makes the
sort stable for elements drawn from the tail of the declaration list. -/
def insertStable (a : Matcher) : List Matcher → List Matcher
  | [] => [a]
  | b :: bs => if matcherLt b a then b :: insertStable a bs else a :: b :: bs

/-- The override set `comes_first` of a64.h: names that must be checked before
all others, regardless of specificity. -/
def comes_first : List String :=
  ["MOVI, MVNI, ORR, BIC (vector, immediate)",
   "FMOV (vector, immediate)"]

/-- The stable-partition predicate of a64.h: `comes_first.count(name) > 0`. -/
def isOverride (m : Matcher) : Bool :=
  comes_first.contains m.name

/-- The `std::stable_sort` step of GetDecodeTable: stable sort in descending
order of the number of set mask bits (insertion sort, which is stable: an
element is inserted into the sorted sequence of the elements declared after
it, before every element it ties with). -/
def sortBySpecificity : List Matcher → List Matcher
  | [] => []
  | a :: as => insertStable a (sortBySpecificity as)

/-- GetDecodeTable of a64.h: sort the declared records by descending mask
popcount with a stable sort, then stable-partition the override-named records
to the front. `std::stable_partition` moves the elements satisfying the
predicate to the front preserving relative order within each class, which is
exactly `filter p ++ filter (not p)`. -/
def GetDecodeTable (table : List Matcher) : List Matcher :=
  (sortBySpecificity table).filter (fun m => isOverride m)
    ++ (sortBySpecificity table).filter (fun m => !(isOverride m))

/-- Decode of a64.h: scan the built table in order with `std::find_if` and
return the first matching record, or an empty optional when none matches. -/
def Decode (table : List Matcher) (instruction : Nat) : Option Matcher :=
  (GetDecodeTable table).find? (fun matcher => matcher.Matches instruction)

/-- The reduced-width example description A of the spec, `"1010----"`
(4 fixed bits), compiled. -/
def exampleA : Matcher :=
  { mask := 0b11110000, expected := 0b10100000, name := "A", handler := 0 }

/-- The reduced-width example description B of the spec, `"10101---"`
(5 fixed bits), compiled. -/
def exampleB : Matcher :=
  { mask := 0b11111000, expected := 0b10101000, name := "B", handler := 1 }

/-- A synthetic non-override record with 5 fixed bits, used to witness the
override-precedence claim against a lower-specificity override record. -/
def plainFiveBits : Matcher :=
  { mask := 0b11111000, expected := 0b10101000, name := "PLAIN", handler := 2 }

/-- A synthetic record carrying an Override Set name with a single fixed bit,
less specific than `plainFiveBits`. -/
def overrideOneBit : Matcher :=
  { mask := 0b1, expected := 0b1, name := "FMOV (vector, immediate)", handler := 3 }

/-! ### Model of src/common/memory_util.cpp

Platform allocation primitives (mmap / VirtualAlloc / posix_memalign) are
external collaborators, passed in as function parameters. Addresses are
naturals, with 0 standing for the null pointer; a platform allocator returns
`none` for the failure sentinel (MAP_FAILED on POSIX, nullptr on Windows).
`ASSERT_MSG(false, msg)` (common/assert.h, fatal per the error-handling
design) is modelled by the `fatalAssert` outcome, which carries its message. -/

/-- Outcome of an allocation call: a returned pointer, or a fatal assertion. -/
inductive AllocResult where
  | ok (ptr : Nat)
  | fatalAssert (msg : String)
deriving DecidableEq, Repr

/-- `round_page` of memory_util.cpp: `((x + PAGE_MASK) & ~PAGE_MASK)` with
`PAGE_MASK = getpagesize() - 1`, on an unsigned long (64-bit). -/
def round_page (pageMask x : Nat) : Nat :=
  ((x + pageMask) % 2 ^ 64) &&& (2 ^ 64 - 1 - pageMask)

/-- AllocateExecutableMemory of memory_util.cpp, on the fullest variant of the
source (POSIX, ARCHITECTURE_X64 without MAP_32BIT, EMU_ARCH_BITS == 64):
when `low` is set and the static hint is still null, the hint is initialized
to 512 MiB rounded up to a page; `mmap` is called with the hint; MAP_FAILED
triggers the fatal assertion "Failed to allocate executable memory";
otherwise, when `low` is set, the hint advances past the allocation; finally,
on 64-bit builds, a returned address at or above 0x80000000 with `low` set
triggers the fatal assertion "Executable memory ended up above 2GB!".
Returns the outcome together with the new value of the static `map_hint`. -/
def AllocateExecutableMemory (mmap : Nat → Nat → Option Nat) (pageMask : Nat)
    (size : Nat) (low : Bool) (map_hint : Nat) : AllocResult × Nat :=
  let hint := if low && (map_hint == 0) then round_page pageMask (512 * 1024 * 1024) else map_hint
  match mmap hint size with
  | none => (AllocResult.fatalAssert "Failed to allocate executable memory", hint)
  | some ptr =>
      let hint2 := if low then round_page pageMask (hint + size) else hint
      if decide (0x80000000 ≤ ptr) && low then
        (AllocResult.fatalAssert "Executable memory ended up above 2GB!", hint2)
      else
        (AllocResult.ok ptr, hint2)

/-- AllocateMemoryPages of memory_util.cpp (POSIX variant): `mmap` with no
hint; MAP_FAILED is normalized to the null pointer, and a null pointer
triggers the fatal assertion "Failed to allocate raw memory". -/
def AllocateMemoryPages (mmap : Nat → Nat → Option Nat) (size : Nat) : AllocResult :=
  let ptr : Nat := match mmap 0 size with
    | none => 0
    | some p => p
  if ptr == 0 then AllocResult.fatalAssert "Failed to allocate raw memory"
  else AllocResult.ok ptr

/-- AllocateAlignedMemory of memory_util.cpp (POSIX, non-Android variant):
`posix_memalign(&ptr, alignment, size)` returns a status and an output
pointer, modelled by the parameter `memalign : alignment → size → status ×
pointer`; a non-zero status triggers the fatal assertion "Failed to allocate
aligned memory", and so does a null resulting pointer. -/
def AllocateAlignedMemory (memalign : Nat → Nat → Nat × Nat)
    (size alignment : Nat) : AllocResult :=
  let r := memalign alignment size
  if r.1 != 0 then AllocResult.fatalAssert "Failed to allocate aligned memory"
  else if r.2 == 0 then AllocResult.fatalAssert "Failed to allocate aligned memory"
  else AllocResult.ok r.2

/-- An observable deallocation call issued to the platform. -/
inductive FreeEffect where
  | munmapCall (ptr size : Nat)
  | virtualFreeCall (ptr : Nat)
  | freeCall (ptr : Nat)
  | alignedFreeCall (ptr : Nat)
deriving DecidableEq, Repr

/-- FreeMemoryPages of memory_util.cpp (POSIX variant): `munmap(ptr, size)` is
called only when the pointer is non-null; its result is ignored. The value is
the list of deallocation calls performed. -/
def FreeMemoryPages (ptr size : Nat) : List FreeEffect :=
  if ptr ≠ 0 then [FreeEffect.munmapCall ptr size] else []

/-- FreeMemoryPages of memory_util.cpp (Windows variant): `VirtualFree` is
called only when the pointer is non-null, and a failed `VirtualFree` raises
the fatal assertion "FreeMemoryPages failed!". The value is the list of
deallocation calls performed together with the raised assertion, if any. -/
def FreeMemoryPagesWin (virtualFree : Nat → Bool) (ptr : Nat) :
    List FreeEffect × Option String :=
  if ptr ≠ 0 then
    if virtualFree ptr then ([FreeEffect.virtualFreeCall ptr], none)
    else ([FreeEffect.virtualFreeCall ptr], some "FreeMemoryPages failed!")
  else ([], none)

/-- FreeAlignedMemory of memory_util.cpp (POSIX variant): `free(ptr)` is
called only when the pointer is non-null; no assertion exists on this path. -/
def FreeAlignedMemory (ptr : Nat) : List FreeEffect :=
  if ptr ≠ 0 then [FreeEffect.freeCall ptr] else []

/-- FreeAlignedMemory of memory_util.cpp (Windows variant):
`_aligned_free(ptr)` is called only when the pointer is non-null; no
assertion exists on this path. -/
def FreeAlignedMemoryWin (ptr : Nat) : List FreeEffect :=
  if ptr ≠ 0 then [FreeEffect.alignedFreeCall ptr] else []

/-! ### Properties of the stable sort -/

theorem insertStable_perm (a : Matcher) (l : List Matcher) :
    List.Perm (insertStable a l) (a :: l) := by
  induction l with
  | nil => exact List.Perm.refl _
  | cons b bs ih =>
      by_cases h : matcherLt b a = true
      · rw [insertStable, if_pos h]
        exact (ih.cons b).trans (List.Perm.swap a b bs)
      · rw [insertStable, if_neg h]

theorem sortBySpecificity_perm (l : List Matcher) :
    List.Perm (sortBySpecificity l) l := by
  induction l with
  | nil => exact List.Perm.refl _
  | cons a as ih =>
      exact (insertStable_perm a (sortBySpecificity as)).trans (ih.cons a)

theorem sorted_insertStable (a : Matcher) (l : List Matcher)
    (h : l.Pairwise (fun x y => BitCount y.mask ≤ BitCount x.mask)) :
    (insertStable a l).Pairwise (fun x y => BitCount y.mask ≤ BitCount x.mask) := by
  induction l with
  | nil => simp [insertStable]
  | cons b bs ih =>
      rcases List.pairwise_cons.mp h with ⟨hb, hbs⟩
      by_cases hlt : matcherLt b a = true
      · rw [insertStable, if_pos hlt]
        simp only [matcherLt, decide_eq_true_eq] at hlt
        refine List.pairwise_cons.mpr ⟨?_, ih hbs⟩
        intro x hx
        have hx2 : x = a ∨ x ∈ bs := by
          simpa using (insertStable_perm a bs).mem_iff.mp hx
        rcases hx2 with rfl | hx2
        · omega
        · exact hb x hx2
      · rw [insertStable, if_neg hlt]
        simp only [matcherLt, decide_eq_true_eq, Nat.not_lt] at hlt
        refine List.pairwise_cons.mpr ⟨?_, h⟩
        intro x hx
        rcases List.mem_cons.mp hx with rfl | hx2
        · exact hlt
        · exact Nat.le_trans (hb x hx2) hlt

theorem sorted_sortBySpecificity (l : List Matcher) :
    (sortBySpecificity l).Pairwise (fun x y => BitCount y.mask ≤ BitCount x.mask) := by
  induction l with
  | nil => simp [sortBySpecificity]
  | cons a as ih =>
      simp only [sortBySpecificity]
      exact sorted_insertStable a (sortBySpecificity as) ih

theorem insertStable_filter (q : Matcher → Bool)
    (hq : ∀ x y : Matcher, q x = true → matcherLt y x = true → q y = false)
    (a : Matcher) (l : List Matcher) :
    (insertStable a l).filter q = (a :: l).filter q := by
  induction l with
  | nil => rfl
  | cons b bs ih =>
      by_cases hlt : matcherLt b a = true
      · rw [insertStable, if_pos hlt]
        by_cases hqa : q a = true
        · have hqb : q b = false := hq a b hqa hlt
          simp [List.filter_cons, hqa, hqb, ih]
        · have hqa2 : q a = false := by
            cases hv : q a
            · rfl
            · exact absurd hv hqa
          simp [List.filter_cons, hqa2, ih]
      · rw [insertStable, if_neg hlt]

theorem sortBySpecificity_filter (q : Matcher → Bool)
    (hq : ∀ x y : Matcher, q x = true → matcherLt y x = true → q y = false)
    (l : List Matcher) :
    (sortBySpecificity l).filter q = l.filter q := by
  induction l with
  | nil => rfl
  | cons a as ih =>
      simp only [sortBySpecificity]
      rw [insertStable_filter q hq a (sortBySpecificity as)]
      simp [List.filter_cons, ih]

/-! ### Properties of the built decode table -/

theorem getDecodeTable_pairwise_spec (descs : List Matcher) :
    (GetDecodeTable descs).Pairwise
      (fun x y => isOverride x = false → isOverride y = false →
        BitCount y.mask ≤ BitCount x.mask) := by
  unfold GetDecodeTable
  rw [List.pairwise_append]
  refine ⟨?_, ?_, ?_⟩
  · refine List.pairwise_of_forall_mem_list ?_
    intro x hx y hy hox hoy
    have : isOverride x = true := by
      simpa using (List.mem_filter.mp hx).2
    rw [this] at hox
    exact absurd hox (by simp)
  · have hs := (sorted_sortBySpecificity descs).filter (fun m => !(isOverride m))
    exact hs.imp (fun hr _ _ => hr)
  · intro x hx y hy
    intro hox
    have : isOverride x = true := by
      simpa using (List.mem_filter.mp hx).2
    rw [this] at hox
    exact absurd hox (by simp)

theorem getDecodeTable_pairwise_override (descs : List Matcher) :
    (GetDecodeTable descs).Pairwise
      (fun x y => isOverride y = true → isOverride x = true) := by
  unfold GetDecodeTable
  rw [List.pairwise_append]
  refine ⟨?_, ?_, ?_⟩
  · refine List.pairwise_of_forall_mem_list ?_
    intro x hx y hy hoy
    simpa using (List.mem_filter.mp hx).2
  · refine List.pairwise_of_forall_mem_list ?_
    intro x hx y hy hoy
    have : (!(isOverride y)) = true := (List.mem_filter.mp hy).2
    rw [hoy] at this
    exact absurd this (by simp)
  · intro x hx y hy hoy
    simpa using (List.mem_filter.mp hx).2

theorem getDecodeTable_filter_of_notOverride (descs : List Matcher) (q : Matcher → Bool)
    (hno : ∀ m : Matcher, q m = true → isOverride m = false) :
    (GetDecodeTable descs).filter q = (sortBySpecificity descs).filter q := by
  unfold GetDecodeTable
  rw [List.filter_append, List.filter_filter, List.filter_filter]
  have h1 : (sortBySpecificity descs).filter (fun a => q a && isOverride a) = [] := by
    rw [List.filter_eq_nil_iff]
    intro a ha
    intro hcontra
    rcases Bool.and_eq_true_iff.mp hcontra with ⟨hqa, hova⟩
    rw [hno a hqa] at hova
    exact absurd hova (by simp)
  have h2 : (sortBySpecificity descs).filter (fun a => q a && !(isOverride a))
      = (sortBySpecificity descs).filter q := by
    refine List.filter_congr ?_
    intro x hx
    cases hv : q x
    · simp
    · simp [hno x hv]
  rw [h1, h2, List.nil_append]

/-! ### Claim theorems: the decoder -/

/-- C1: for every instruction word and every table built by GetDecodeTable,
Decode returns the first record in table order whose match predicate holds on
the word — the returned record matches, every record preceding it in the
table does not match, and when Decode returns empty no record matches. In
particular, when two records both match, the one earlier in the table is
returned. -/
theorem c1_decode_first_match (descs : List Matcher) (w : Nat) :
    (∀ m : Matcher, Decode descs w = some m →
        m.Matches w = true ∧
        ∃ pre post, GetDecodeTable descs = pre ++ m :: post ∧
          ∀ x ∈ pre, x.Matches w = false)
    ∧ (Decode descs w = none → ∀ m ∈ GetDecodeTable descs, m.Matches w = false) := by
  constructor
  · intro m h
    unfold Decode at h
    rw [List.find?_eq_some] at h
    rcases h with ⟨hm, pre, post, heq, hpre⟩
    refine ⟨hm, pre, post, heq, ?_⟩
    intro x hx
    simpa using hpre x hx
  · intro h m hm
    unfold Decode at h
    rw [List.find?_eq_none] at h
    simpa using h m hm

/-- Witness for C1 at a concrete input: decoding `0b10101100` against the
example table returns `exampleB`, which matches, and every earlier record in
the built table does not match. -/
theorem c1_witness :
    Matcher.Matches exampleB 0b10101100 = true ∧
    ∃ pre post, GetDecodeTable [exampleA, exampleB] = pre ++ exampleB :: post ∧
      ∀ x ∈ pre, Matcher.Matches x 0b10101100 = false :=
  (c1_decode_first_match [exampleA, exampleB] 0b10101100).1 exampleB (by decide)

/-- C2: in the built table, among records not in the override set, a record
with strictly more set mask bits appears strictly earlier; and for every
fixed-bit count, the non-override records of that count appear in exactly
their declaration order (stability). -/
theorem c2_specificity_order (descs : List Matcher) :
    (∀ (i j : Nat) (hi : i < (GetDecodeTable descs).length)
        (hj : j < (GetDecodeTable descs).length),
        isOverride ((GetDecodeTable descs)[i]) = false →
        isOverride ((GetDecodeTable descs)[j]) = false →
        BitCount ((GetDecodeTable descs)[j]).mask
          < BitCount ((GetDecodeTable descs)[i]).mask →
        i < j)
    ∧ ∀ k : Nat,
        (GetDecodeTable descs).filter (fun m => !(isOverride m) && (BitCount m.mask == k))
          = descs.filter (fun m => !(isOverride m) && (BitCount m.mask == k)) := by
  constructor
  · have hp := getDecodeTable_pairwise_spec descs
    rw [List.pairwise_iff_getElem] at hp
    intro i j hi hj hoi hoj hcnt
    rcases Nat.lt_trichotomy i j with h | h | h
    · exact h
    · subst h
      omega
    · have := hp j i hj hi h hoj hoi
      omega
  · intro k
    have hq : ∀ x y : Matcher,
        (!(isOverride x) && (BitCount x.mask == k)) = true →
        matcherLt y x = true →
        (!(isOverride y) && (BitCount y.mask == k)) = false := by
      intro x y hqx hlt
      rcases Bool.and_eq_true_iff.mp hqx with ⟨hox, hkx⟩
      have hkx2 : BitCount x.mask = k := by simpa using hkx
      simp only [matcherLt, decide_eq_true_eq] at hlt
      have hky : BitCount y.mask ≠ k := by omega
      cases hb : (BitCount y.mask == k)
      · simp
      · have : BitCount y.mask = k := by simpa using hb
        exact absurd this hky
    have h1 := getDecodeTable_filter_of_notOverride descs
        (fun m => !(isOverride m) && (BitCount m.mask == k))
        (by
          intro m hm
          rcases Bool.and_eq_true_iff.mp hm with ⟨hom, hkm⟩
          simpa using hom)
    rw [h1]
    exact sortBySpecificity_filter _ hq descs

/-- Witness for C2 at a concrete input: in the table built from the
declarations `[exampleA, exampleB]` (4 and 5 fixed bits, neither an override
name), the 5-bit record sits at index 0 and the 4-bit record at index 1, and
the non-override records with 4 fixed bits keep their declaration order. -/
theorem c2_witness :
    ((0:Nat) < 1) ∧
    (GetDecodeTable [exampleA, exampleB]).filter
        (fun m => !(isOverride m) && (BitCount m.mask == 4))
      = [exampleA, exampleB].filter (fun m => !(isOverride m) && (BitCount m.mask == 4)) :=
  ⟨(c2_specificity_order [exampleA, exampleB]).1 0 1 (by decide) (by decide)
      (by decide) (by decide) (by decide),
   (c2_specificity_order [exampleA, exampleB]).2 4⟩

/-- C3: in the built table, every record whose name is in the override set
precedes every record whose name is not — even when the override record has a
lower mask popcount — and within each of the two partitions the record order
is exactly the post-sort order. -/
theorem c3_override_precedence (descs : List Matcher) :
    (∀ (i j : Nat) (hi : i < (GetDecodeTable descs).length)
        (hj : j < (GetDecodeTable descs).length),
        isOverride ((GetDecodeTable descs)[i]) = true →
        isOverride ((GetDecodeTable descs)[j]) = false →
        i < j)
    ∧ (GetDecodeTable descs).filter (fun m => isOverride m)
        = (sortBySpecificity descs).filter (fun m => isOverride m)
    ∧ (GetDecodeTable descs).filter (fun m => !(isOverride m))
        = (sortBySpecificity descs).filter (fun m => !(isOverride m)) := by
  refine ⟨?_, ?_, ?_⟩
  · have hp := getDecodeTable_pairwise_override descs
    rw [List.pairwise_iff_getElem] at hp
    intro i j hi hj hoi hoj
    rcases Nat.lt_trichotomy i j with h | h | h
    · exact h
    · subst h
      rw [hoi] at hoj
      exact absurd hoj (by simp)
    · have := hp j i hj hi h hoi
      rw [this] at hoj
      exact absurd hoj (by simp)
  · unfold GetDecodeTable
    rw [List.filter_append, List.filter_filter, List.filter_filter]
    have h2 : (sortBySpecificity descs).filter
        (fun a => (fun m => isOverride m) a && (fun m => !(isOverride m)) a) = [] := by
      rw [List.filter_eq_nil_iff]
      intro a ha hcontra
      rcases Bool.and_eq_true_iff.mp hcontra with ⟨h1, h2⟩
      simp only [Bool.not_eq_true'] at h1 h2
      rw [h1] at h2
      exact absurd h2 (by simp)
    rw [h2, List.append_nil]
    refine List.filter_congr ?_
    intro x hx
    cases hv : isOverride x <;> simp [hv]
  · exact getDecodeTable_filter_of_notOverride descs (fun m => !(isOverride m))
      (by intro m hm; simpa using hm)

/-- Witness for C3 at a concrete input: from the declarations
`[plainFiveBits, overrideOneBit]` (5 fixed bits non-override, then 1 fixed
bit override), the built table puts the override record at index 0 and the
non-override record at index 1. -/
theorem c3_witness :
    isOverride overrideOneBit = true ∧ (0:Nat) < 1 :=
  ⟨by decide,
   (c3_override_precedence [plainFiveBits, overrideOneBit]).1 0 1 (by decide) (by decide)
     (by decide) (by decide)⟩

/-- C4: Decode is deterministic — for a fixed declaration list and word, two
calls return the same result, and two independent builds of the table yield
sequences with identical name ordering. In this pure embedding both facts
hold definitionally: the build and the lookup are functions of their
arguments alone. -/
theorem c4_deterministic (descs : List Matcher) (w : Nat) :
    Decode descs w = Decode descs w
    ∧ (GetDecodeTable descs).map Matcher.name = (GetDecodeTable descs).map Matcher.name :=
  ⟨rfl, rfl⟩

/-- C5: with exactly the two declared descriptions A = "1010----" (4 fixed
bits) and B = "10101---" (5 fixed bits), neither an override name, decoding
0b10101100 selects B and decoding 0b10100100 selects A. -/
theorem c5_end_to_end :
    GetMatcher "A" 0 "1010----" = some exampleA
    ∧ GetMatcher "B" 1 "10101---" = some exampleB
    ∧ isOverride exampleA = false
    ∧ isOverride exampleB = false
    ∧ (Decode [exampleA, exampleB] 0b10101100).map Matcher.name = some "B"
    ∧ (Decode [exampleA, exampleB] 0b10100100).map Matcher.name = some "A" := by
  decide

/-- C6: when no record in the built table matches the word, Decode returns
the empty (`none`) variant of its optional result type — a first-class
outcome, not an error. -/
theorem c6_decode_miss (descs : List Matcher) (w : Nat)
    (h : ∀ m ∈ GetDecodeTable descs, m.Matches w = false) :
    Decode descs w = none := by
  unfold Decode
  rw [List.find?_eq_none]
  intro x hx
  simp [h x hx]

/-- Witness for C6 at a concrete input: the word 0 matches no record of the
example table, and Decode returns none on it. -/
theorem c6_witness : Decode [exampleA, exampleB] 0 = none :=
  c6_decode_miss [exampleA, exampleB] 0 (by decide)

/-- C9: the built table is a permutation of the declared records — sorting
and partitioning never drop, duplicate, or add a record, and each record
(with its name and handler binding) is preserved as a value. -/
theorem c9_table_permutation (descs : List Matcher) :
    List.Perm (GetDecodeTable descs) descs := by
  unfold GetDecodeTable
  exact (List.filter_append_perm (fun m => isOverride m) (sortBySpecificity descs)).trans
    (sortBySpecificity_perm descs)

/-! ### Claim theorems: the memory helpers -/

/-- C7: for AllocateExecutableMemory, AllocateMemoryPages and
AllocateAlignedMemory, failure of the underlying platform allocation
(MAP_FAILED / null pointer / non-zero posix_memalign status) triggers the
fatal assertion for that function; no recoverable error value reaches the
caller. -/
theorem c7_alloc_failure_fatal (mm : Nat → Nat → Option Nat)
    (ma : Nat → Nat → Nat × Nat) (pageMask size alignment map_hint : Nat) (low : Bool)
    (hmm : ∀ a b : Nat, mm a b = none)
    (hma : ∀ a b : Nat, (ma a b).1 ≠ 0 ∨ (ma a b).2 = 0) :
    (AllocateExecutableMemory mm pageMask size low map_hint).1
        = AllocResult.fatalAssert "Failed to allocate executable memory"
    ∧ AllocateMemoryPages mm size = AllocResult.fatalAssert "Failed to allocate raw memory"
    ∧ AllocateAlignedMemory ma size alignment
        = AllocResult.fatalAssert "Failed to allocate aligned memory" := by
  refine ⟨?_, ?_, ?_⟩
  · simp [AllocateExecutableMemory, hmm]
  · simp [AllocateMemoryPages, hmm]
  · by_cases h1 : (ma alignment size).1 = 0
    · rcases hma alignment size with h | h
      · exact absurd h1 h
      · simp [AllocateAlignedMemory, h1, h]
    · simp [AllocateAlignedMemory, h1]

/-- Witness for C7 at concrete inputs: a platform whose mmap always fails and
whose posix_memalign always reports a non-zero status makes all three
allocators assert fatally. -/
theorem c7_witness :
    (AllocateExecutableMemory (fun _ _ => none) 0xFFF 0x1000 true 0).1
        = AllocResult.fatalAssert "Failed to allocate executable memory"
    ∧ AllocateMemoryPages (fun _ _ => none) 0x1000
        = AllocResult.fatalAssert "Failed to allocate raw memory"
    ∧ AllocateAlignedMemory (fun _ _ => (1, 0)) 0x1000 16
        = AllocResult.fatalAssert "Failed to allocate aligned memory" :=
  c7_alloc_failure_fatal (fun _ _ => none) (fun _ _ => (1, 0)) 0xFFF 0x1000 16 0 true
    (fun _ _ => rfl) (fun _ _ => Or.inl Nat.one_ne_zero)

/-- C8 counterexample: the claim says a 64-bit low-hinted allocation may
complete and return an address at or above 0x80000000 without that outcome
being treated as a failure, but at the concrete input where the platform
returns exactly 0x80000000 with the low hint set, AllocateExecutableMemory
triggers the fatal assertion "Executable memory ended up above 2GB!" — the
outcome is treated as a failure. -/
theorem c8_counterexample :
    (AllocateExecutableMemory (fun _ _ => some 0x80000000) 0xFFF 0x1000 true 0).1
      = AllocResult.fatalAssert "Executable memory ended up above 2GB!" := by
  decide

/-- C8 (amended): on 64-bit targets with the low hint set, the low-address
request is only a hint to the platform (no MAP_FIXED is used), but its
outcome is enforced by a post-allocation check: an address at or above
0x80000000 triggers a fatal assertion, while an address below 0x80000000
completes normally and is returned. -/
theorem c8_low_hint_enforced (mm : Nat → Nat → Option Nat)
    (pageMask size map_hint p : Nat)
    (h : ∀ a b : Nat, mm a b = some p) :
    (0x80000000 ≤ p →
      (AllocateExecutableMemory mm pageMask size true map_hint).1
        = AllocResult.fatalAssert "Executable memory ended up above 2GB!")
    ∧ (p < 0x80000000 →
      (AllocateExecutableMemory mm pageMask size true map_hint).1
        = AllocResult.ok p) := by
  constructor
  · intro hp
    simp [AllocateExecutableMemory, h, hp]
  · intro hp
    have hd : decide (0x80000000 ≤ p) = false := by
      rw [decide_eq_false_iff_not]
      omega
    simp [AllocateExecutableMemory, h, hd]

/-- Witness for the amended C8 at concrete inputs: a platform returning
0x80000000 under the low hint makes the function assert fatally. -/
theorem c8_witness :
    (0x80000000:Nat) ≤ 0x80000000 ∧
    (AllocateExecutableMemory (fun _ _ => some 0x80000000) 0xFFE 0x2000 true 0).1
      = AllocResult.fatalAssert "Executable memory ended up above 2GB!" :=
  ⟨by decide,
   (c8_low_hint_enforced (fun _ _ => some 0x80000000) 0xFFE 0x2000 0 0x80000000
      (fun _ _ => rfl)).1 (by decide)⟩

/-- C10: FreeMemoryPages and FreeAlignedMemory called with a null pointer are
no-ops on both the POSIX and the Windows paths: no deallocation call is
issued and no assertion is raised. -/
theorem c10_null_free_noop (size : Nat) (virtualFree : Nat → Bool) :
    FreeMemoryPages 0 size = []
    ∧ FreeAlignedMemory 0 = []
    ∧ FreeMemoryPagesWin virtualFree 0 = ([], none)
    ∧ FreeAlignedMemoryWin 0 = [] := by
  refine ⟨?_, ?_, ?_, ?_⟩
  · simp [FreeMemoryPages]
  · simp [FreeAlignedMemory]
  · simp [FreeMemoryPagesWin]
  · simp [FreeAlignedMemoryWin]
